import Mathlib

/-!
Verification of the awesome-cluster connection balancer.

Shallow embedding of `src/awesome-cluster.js` (and its transports): the
seeded 32-bit address hash, the balancer (round-robin and sticky modes),
the worker-side IPC message handler, the worker supervisor (spawn,
respawn, exit handling) and the debug-port / `execArgv` rewriting done by
`fork`.  JavaScript numbers appearing here are exact integers well below
2^53, so they are modelled by `Int`/`Nat` with the 32-bit coercions
(`ToInt32`, `ToUint32`) made explicit at the bitwise operators, JS `%`
modelled sign-of-dividend, and JS `>>` modelled as an arithmetic shift.
-/

/-- Unsigned 32-bit pattern of an integer (JS `ToUint32`, i.e. `x >>> 0`). -/
def toNat32 (a : Int) : Nat := (a % 4294967296).toNat

/-- JS `ToInt32`: the 32-bit pattern read back as a signed value. -/
def toInt32 (a : Int) : Int :=
  if a % 4294967296 < 2147483648 then a % 4294967296 else a % 4294967296 - 4294967296

/-- JS `%` for a positive modulus: remainder carrying the dividend's sign. -/
def jsRem (a m : Int) : Int :=
  if 0 ≤ a then a % m else -((-a) % m)

/-- JS `a << k`: coerce to int32, shift, wrap to int32. -/
def jsShiftL (a : Int) (k : Nat) : Int := toInt32 (toInt32 a * 2 ^ k)

/-- JS `a >> k`: coerce to int32, then arithmetic (sign-propagating) shift,
i.e. floor division by `2 ^ k`. -/
def jsShiftRS (a : Int) (k : Nat) : Int := toInt32 a / 2 ^ k

/-- JS `a ^ b`: xor of the 32-bit patterns, read back as int32. -/
def jsXor32 (a b : Int) : Int :=
  toInt32 ((Nat.xor (toNat32 a) (toNat32 b) : Nat) : Int)

/-- Per-byte body of the `hash` loop in `awesome-cluster.js`:
`hash += num; hash %= 2147483648; hash += (hash << 10); hash %= 2147483648;
hash ^= hash >> 6;`. -/
def hashStepJS (h : Int) (b : Nat) : Int :=
  let h1 := jsRem (h + (b : Int)) 2147483648
  let h2 := jsRem (h1 + jsShiftL h1 10) 2147483648
  jsXor32 h2 (jsShiftRS h2 6)

/-- Final avalanche of the `hash` function:
`hash += hash << 3; hash %= 2147483648; hash ^= hash >> 11;
hash += hash << 15; hash %= 2147483648;`. -/
def hashFinJS (h : Int) : Int :=
  let h1 := jsRem (h + jsShiftL h 3) 2147483648
  let h2 := jsXor32 h1 (jsShiftRS h1 11)
  jsRem (h2 + jsShiftL h2 15) 2147483648

/-- The source's `hash(ip)` with seed `this.seed`: run the loop from the
seed, avalanche, and return `hash >>> 0`. -/
def hashJS (seed : Int) (ip : List Nat) : Nat :=
  toNat32 (hashFinJS (ip.foldl hashStepJS seed))

/-- Modelled from the spec (§4.7): per-byte step of the mixer as written
there, with logical 32-bit shifts and each addition reduced modulo 2^31,
so every intermediate value is nonnegative and below 2^31. -/
def hashStepSpec (h : Nat) (b : Nat) : Nat :=
  let h1 := (h + b) % 2147483648
  let h2 := (h1 + h1 * 2 ^ 10 % 4294967296) % 2147483648
  Nat.xor h2 (h2 / 2 ^ 6)

/-- Modelled from the spec (§4.7): the final avalanche of the mixer. -/
def hashFinSpec (h : Nat) : Nat :=
  let h1 := (h + h * 2 ^ 3 % 4294967296) % 2147483648
  let h2 := Nat.xor h1 (h1 / 2 ^ 11)
  (h2 + h2 * 2 ^ 15 % 4294967296) % 2147483648

/-- Modelled from the spec (§4.7): the whole mixer from a seed. -/
def hashSpec (seed : Nat) (ip : List Nat) : Nat :=
  hashFinSpec (ip.foldl hashStepSpec seed)

/-- Nonnegativity of the two reductions `hash %= 2147483648` inside one
loop iteration of the JS hash. -/
def nonnegStep (h : Int) (b : Nat) : Bool :=
  let h1 := jsRem (h + (b : Int)) 2147483648
  let h2 := jsRem (h1 + jsShiftL h1 10) 2147483648
  decide (0 ≤ h1) && decide (0 ≤ h2)

/-- Nonnegativity of every in-loop reduction of the JS hash. -/
def loopNonneg : Int → List Nat → Bool
  | _, [] => true
  | h, b :: bs => nonnegStep h b && loopNonneg (hashStepJS h b) bs

/-- Nonnegativity of the two reductions in the final avalanche. -/
def finNonneg (h : Int) : Bool :=
  let h1 := jsRem (h + jsShiftL h 3) 2147483648
  let h2 := jsXor32 h1 (jsShiftRS h1 11)
  decide (0 ≤ h1) && decide (0 ≤ jsRem (h2 + jsShiftL h2 15) 2147483648)

/-- Every reduction `hash %= 2147483648` performed while hashing `ip` from
`seed` yields a nonnegative value. -/
def nonnegTrace (seed : Int) (ip : List Nat) : Bool :=
  loopNonneg seed ip && finNonneg (ip.foldl hashStepJS seed)

/-! ## Arithmetic facts about the JS operators -/

theorem jsRem_nonneg_eq (a m : Int) (hm : 0 < m) (h : 0 ≤ jsRem a m) :
    jsRem a m = a % m := by
  by_cases ha : 0 ≤ a
  · simp [jsRem, ha]
  · simp only [jsRem, ha, if_false] at h ⊢
    have h1 : 0 ≤ (-a) % m := Int.emod_nonneg _ (by omega)
    have h2 : (-a) % m = 0 := by omega
    have h4 : m ∣ a := dvd_neg.mp (Int.dvd_of_emod_eq_zero h2)
    rw [h2, Int.emod_eq_zero_of_dvd h4]
    simp

theorem toInt32_emod31 (x : Int) : toInt32 x % 2147483648 = x % 2147483648 := by
  have hdvd : (2147483648 : Int) ∣ 4294967296 := ⟨2, by norm_num⟩
  have h1 : x % 4294967296 % 2147483648 = x % 2147483648 :=
    Int.emod_emod_of_dvd x hdvd
  unfold toInt32
  split
  · exact h1
  · rw [Int.sub_emod, h1]
    norm_num

theorem jsShiftL_emod31 (x : Int) (k : Nat) :
    jsShiftL x k % 2147483648 = x * 2 ^ k % 2147483648 := by
  unfold jsShiftL
  rw [toInt32_emod31, Int.mul_emod, toInt32_emod31, ← Int.mul_emod]

theorem toInt32_of_small (x : Int) (h0 : 0 ≤ x) (h1 : x < 2147483648) :
    toInt32 x = x := by
  have hx : x % 4294967296 = x := Int.emod_eq_of_lt h0 (by omega)
  simp [toInt32, hx, h1]

theorem toNat32_cast (n : Nat) (h : n < 4294967296) :
    toNat32 ((n : Nat) : Int) = n := by
  unfold toNat32
  rw [Int.emod_eq_of_lt (by omega) (by omega)]
  omega

theorem jsShiftRS6_cast (a : Nat) (h : a < 2147483648) :
    jsShiftRS ((a : Nat) : Int) 6 = ((a / 2 ^ 6 : Nat) : Int) := by
  unfold jsShiftRS
  rw [toInt32_of_small _ (by omega) (by omega)]
  norm_num

theorem jsShiftRS11_cast (a : Nat) (h : a < 2147483648) :
    jsShiftRS ((a : Nat) : Int) 11 = ((a / 2 ^ 11 : Nat) : Int) := by
  unfold jsShiftRS
  rw [toInt32_of_small _ (by omega) (by omega)]
  norm_num

theorem xor_lt31 (a b : Nat) (ha : a < 2147483648) (hb : b < 2147483648) :
    Nat.xor a b < 2147483648 := by
  have h31 : (2147483648 : Nat) = 2 ^ 31 := by norm_num
  rw [h31] at ha hb ⊢
  exact Nat.xor_lt_two_pow ha hb

theorem jsXor32_cast (a b : Nat) (ha : a < 2147483648) (hb : b < 2147483648) :
    jsXor32 ((a : Nat) : Int) ((b : Nat) : Int) = ((Nat.xor a b : Nat) : Int) := by
  unfold jsXor32
  rw [toNat32_cast a (by omega), toNat32_cast b (by omega)]
  have hxor : Nat.xor a b < 2147483648 := xor_lt31 a b ha hb
  exact toInt32_of_small _ (by omega) (by omega)

/-! ## Step-by-step agreement of the JS hash with the spec mixer, on
nonnegative traces -/

theorem hashStepJS_eq_spec (hs b : Nat) (hlt : hs < 2147483648)
    (hn : nonnegStep ((hs : Nat) : Int) b = true) :
    hashStepJS ((hs : Nat) : Int) b = ((hashStepSpec hs b : Nat) : Int) ∧
      hashStepSpec hs b < 2147483648 := by
  have hM : (0 : Int) < 2147483648 := by norm_num
  simp only [nonnegStep, Bool.and_eq_true, decide_eq_true_eq] at hn
  obtain ⟨hg1, hg2⟩ := hn
  simp only [hashStepJS, hashStepSpec]
  set n1 : Nat := (hs + b) % 2147483648 with hd1
  have hdvd : (2147483648 : Int) ∣ 4294967296 := ⟨2, by norm_num⟩
  have e1 : jsRem ((hs : Int) + (b : Int)) 2147483648 = ((n1 : Nat) : Int) := by
    rw [jsRem_nonneg_eq _ _ hM hg1, hd1]
    push_cast
    rfl
  rw [e1] at hg2 ⊢
  have hsh := jsShiftL_emod31 ((n1 : Nat) : Int) 10
  set n2 : Nat := (n1 + n1 * 2 ^ 10 % 4294967296) % 2147483648 with hd2
  have e2 : jsRem ((n1 : Int) + jsShiftL ((n1 : Nat) : Int) 10) 2147483648
      = ((n2 : Nat) : Int) := by
    rw [jsRem_nonneg_eq _ _ hM hg2, hd2]
    push_cast
    rw [Int.add_emod]
    conv_rhs => rw [Int.add_emod, Int.emod_emod_of_dvd _ hdvd]
    rw [hsh]
    norm_num
  rw [e2]
  have hbound2 : n2 < 2147483648 := by rw [hd2]; exact Nat.mod_lt _ (by norm_num)
  have hdiv2 : n2 / 2 ^ 6 < 2147483648 :=
    lt_of_le_of_lt (Nat.div_le_self _ _) hbound2
  rw [jsShiftRS6_cast n2 hbound2, jsXor32_cast _ _ hbound2 hdiv2]
  exact ⟨rfl, xor_lt31 _ _ hbound2 hdiv2⟩

theorem hashFinJS_eq_spec (hs : Nat) (hlt : hs < 2147483648)
    (hn : finNonneg ((hs : Nat) : Int) = true) :
    hashFinJS ((hs : Nat) : Int) = ((hashFinSpec hs : Nat) : Int) ∧
      hashFinSpec hs < 2147483648 := by
  have hM : (0 : Int) < 2147483648 := by norm_num
  simp only [finNonneg, Bool.and_eq_true, decide_eq_true_eq] at hn
  obtain ⟨hg1, hg2⟩ := hn
  simp only [hashFinJS, hashFinSpec]
  have hdvd : (2147483648 : Int) ∣ 4294967296 := ⟨2, by norm_num⟩
  have hsh3 := jsShiftL_emod31 ((hs : Nat) : Int) 3
  set n1 : Nat := (hs + hs * 2 ^ 3 % 4294967296) % 2147483648 with hd1
  have e1 : jsRem ((hs : Int) + jsShiftL ((hs : Nat) : Int) 3) 2147483648
      = ((n1 : Nat) : Int) := by
    rw [jsRem_nonneg_eq _ _ hM hg1, hd1]
    push_cast
    rw [Int.add_emod]
    conv_rhs => rw [Int.add_emod, Int.emod_emod_of_dvd _ hdvd]
    rw [hsh3]
    norm_num
  rw [e1] at hg2 ⊢
  have hbound1 : n1 < 2147483648 := by rw [hd1]; exact Nat.mod_lt _ (by norm_num)
  have hdiv1 : n1 / 2 ^ 11 < 2147483648 :=
    lt_of_le_of_lt (Nat.div_le_self _ _) hbound1
  have e2 : jsXor32 ((n1 : Nat) : Int) (jsShiftRS ((n1 : Nat) : Int) 11)
      = ((Nat.xor n1 (n1 / 2 ^ 11) : Nat) : Int) := by
    rw [jsShiftRS11_cast n1 hbound1, jsXor32_cast _ _ hbound1 hdiv1]
  rw [e2] at hg2 ⊢
  set n2 : Nat := Nat.xor n1 (n1 / 2 ^ 11) with hd2
  have hbound2 : n2 < 2147483648 := by rw [hd2]; exact xor_lt31 _ _ hbound1 hdiv1
  have hsh15 := jsShiftL_emod31 ((n2 : Nat) : Int) 15
  have e3 : jsRem ((n2 : Int) + jsShiftL ((n2 : Nat) : Int) 15) 2147483648
      = (((n2 + n2 * 2 ^ 15 % 4294967296) % 2147483648 : Nat) : Int) := by
    rw [jsRem_nonneg_eq _ _ hM hg2]
    push_cast
    rw [Int.add_emod]
    conv_rhs => rw [Int.add_emod, Int.emod_emod_of_dvd _ hdvd]
    rw [hsh15]
    norm_num
  rw [e3]
  exact ⟨rfl, Nat.mod_lt _ (by norm_num)⟩

theorem loop_eq_spec (ip : List Nat) (hs : Nat) (hlt : hs < 2147483648)
    (hn : loopNonneg ((hs : Nat) : Int) ip = true) :
    ip.foldl hashStepJS ((hs : Nat) : Int)
      = ((ip.foldl hashStepSpec hs : Nat) : Int) ∧
      ip.foldl hashStepSpec hs < 2147483648 := by
  induction ip generalizing hs with
  | nil => exact ⟨rfl, hlt⟩
  | cons b bs ih =>
    simp only [loopNonneg, Bool.and_eq_true] at hn
    obtain ⟨h1, h2⟩ := hn
    obtain ⟨estep, bstep⟩ := hashStepJS_eq_spec hs b hlt h1
    simp only [List.foldl_cons]
    rw [estep] at h2 ⊢
    exact ih (hashStepSpec hs b) bstep h2

/-! ## Worker handles, the balancer, and the supervisor -/

/-- Master-side handle of a worker child process: its pid and the
`connected` flag of its IPC channel. -/
structure WorkerH where
  pid : Nat
  connected : Bool
deriving DecidableEq, Repr

/-- JS array indexing `workers[i]`: `undefined` (here `none`) when out of
bounds; the stored element (itself possibly `undefined`) otherwise. -/
def jsIndex (ws : List (Option WorkerH)) (i : Nat) : Option WorkerH :=
  (ws[i]?).getD none

/-- Selection phase of `balance`: sticky mode reads
`workers[hash(addr) % workers.length]` and leaves the list alone;
round-robin mode does `worker = workers.shift(); workers.push(worker)`
(on an empty list `shift` yields `undefined`, which is then pushed). -/
def selectPhase (isPerm : Bool) (seed : Int) (addr : List Nat)
    (ws : List (Option WorkerH)) : Option WorkerH × List (Option WorkerH) :=
  if isPerm then
    (jsIndex ws (hashJS seed addr % ws.length), ws)
  else
    match ws with
    | [] => (none, [none])
    | w :: rest => (w, rest ++ [w])

/-- The try block of `balance`: reading `worker.connected` on `undefined`
throws a TypeError; a non-connected worker hits the explicit
`throw new Error(...)`; `worker.send` itself can also fail at runtime,
modelled by the `sendOk` flag. -/
def trySend (w : Option WorkerH) (sendOk : Bool) : Except Unit Unit :=
  match w with
  | none => Except.error ()
  | some wh =>
    if wh.connected then
      (if sendOk then Except.ok () else Except.error ())
    else Except.error ()

/-- Outcome of one `balance(socket)` call: the selected `worker` variable,
whether the `"balancing"` message with the socket was delivered, the
actions of the catch block (`logError`, `socket.emit("close")`,
`socket.end()`), and the routing list afterwards. -/
structure BalanceResult where
  selected : Option WorkerH
  sent : Bool
  errorLogged : Bool
  closedEmitted : Bool
  ended : Bool
  workers : List (Option WorkerH)
deriving DecidableEq, Repr

/-- The master's `balance`: select a worker by policy, then try to send
the socket; on any failure, log, emit `close` on the socket and end it. -/
def balance (isPerm : Bool) (seed : Int) (addr : List Nat) (sendOk : Bool)
    (ws : List (Option WorkerH)) : BalanceResult :=
  let sel := selectPhase isPerm seed addr ws
  match trySend sel.1 sendOk with
  | Except.ok _ =>
    { selected := sel.1, sent := true, errorLogged := false,
      closedEmitted := false, ended := false, workers := sel.2 }
  | Except.error _ =>
    { selected := sel.1, sent := false, errorLogged := true,
      closedEmitted := true, ended := true, workers := sel.2 }

/-- Iterated round-robin balancing: the routing list after `k` sequential
connections have been balanced. -/
def balanceIter (seed : Int) (addr : List Nat) (ws : List (Option WorkerH)) :
    Nat → List (Option WorkerH)
  | 0 => ws
  | k + 1 => (balance false seed addr true (balanceIter seed addr ws k)).workers

/-- JS `array.indexOf(x)`: the index of the first strict-equality match,
`none` standing for the sentinel `-1` when the element is absent. -/
def jsIndexOf (ws : List WorkerH) (dead : WorkerH) : Option Nat :=
  match ws with
  | [] => none
  | x :: xs => if x = dead then some 0 else (jsIndexOf xs dead).map (· + 1)

/-- The supervisor's `respawn(worker)`: look the dead handle up by
identity (`indexOf`), remove it when found (`splice(index, 1)`), then
`spawnWorker`, whose last step is `this.workers.push(worker)` with the
fresh handle. -/
def respawnList (ws : List WorkerH) (dead fresh : WorkerH) : List WorkerH :=
  (match jsIndexOf ws dead with
   | some i => ws.eraseIdx i
   | none => ws) ++ [fresh]

/-- The `exit` handler installed by `spawnWorker`: respawn only when
`needRespawn` is set — otherwise it does nothing at all. -/
def onExit (needRespawn : Bool) (ws : List WorkerH) (dead fresh : WorkerH) :
    List WorkerH :=
  if needRespawn then respawnList ws dead fresh else ws

/-- Worker-side state of the transport server: the internal
`_connections` counter, the sockets whose `.server` field was set to this
server, and the payloads of emitted `connection` events (sockets named by
an id). -/
structure WState where
  connections : Nat
  owned : List Nat
  emitted : List Nat
deriving DecidableEq, Repr

/-- `startWorker`'s IPC message handler:
`if (msg !== 'balancing' || !socket) return;` then
`server._connections++; socket.server = server;
server.emit('connection', socket);`. -/
def handleMessage (msg : String) (sock : Option Nat) (st : WState) : WState :=
  if msg = "balancing" then
    match sock with
    | some s =>
      { connections := st.connections + 1, owned := st.owned ++ [s],
        emitted := st.emitted ++ [s] }
    | none => st
  else st

/-- `fork`'s debug-port pick for one spawn:
`let inspectPort = process.debugPort + debugPortOffset;
if (inspectPort > maxPort) inspectPort -= 1;` with `maxPort = 65535`. -/
def assignInspectPort (debugPort offsetV : Nat) : Nat :=
  let p := debugPort + offsetV
  if p > 65535 then p - 1 else p

/-- Ports assigned over a whole sequence of `n` spawns:
`debugPortOffset` starts at 1 and is incremented by each spawn. -/
def inspectPorts (debugPort n : Nat) : List Nat :=
  (List.range n).map (fun k => assignInspectPort debugPort (k + 1))

/-- Does `needle` occur at the head of `hay`? (used to model JS
`String.prototype.includes`). -/
def listStartsWith : List Char → List Char → Bool
  | [], _ => true
  | _ :: _, [] => false
  | a :: as, b :: bs => a = b && listStartsWith as bs

/-- Does `needle` occur anywhere inside `hay`? -/
def listHasSub (needle : List Char) : List Char → Bool
  | [] => needle.isEmpty
  | b :: bs => listStartsWith needle (b :: bs) || listHasSub needle bs

/-- JS `arg.includes('--inspect-brk')`. -/
def matchesInspectBrk (s : String) : Bool :=
  listHasSub "--inspect-brk".toList s.toList

/-- JS `arg.match(inspectRegex)` where `inspectRegex` is the pattern
`--inspect(?:-brk|-port)?|--debug-port`: an unanchored match succeeds
whenever the argument contains `--inspect` (the suffix group is optional)
or contains `--debug-port`. -/
def inspectRegexMatch (s : String) : Bool :=
  listHasSub "--inspect".toList s.toList ||
    listHasSub "--debug-port".toList s.toList

/-- The removal loop of `fork`:
`for (let i = 0; i < execArgv.length; i++) {
   if (execArgv[i].includes('--inspect-brk')) { execArgv.splice(i, 1); } }`
— note `i` is still incremented after a `splice`, so the element that
slides into the freed slot is never examined. -/
def spliceLoopAux (l : List String) (i : Nat) : List String :=
  if h : i < l.length then
    if matchesInspectBrk (l.get ⟨i, h⟩) then spliceLoopAux (l.eraseIdx i) (i + 1)
    else spliceLoopAux l (i + 1)
  else l
termination_by l.length - i
decreasing_by
  all_goals simp [List.length_eraseIdx, h]
  all_goals omega

/-- Structural companion of `spliceLoopAux`: remove a matching head but
keep (uninspected) the element right after it. -/
def goSplice : List String → List String
  | [] => []
  | x :: xs =>
    if matchesInspectBrk x then
      match xs with
      | [] => []
      | y :: ys => y :: goSplice ys
    else x :: goSplice xs

/-- The argument appended by `fork`: `` `--inspect-brk=${inspectPort}` ``. -/
def inspectBrkArg (port : Nat) : String := "--inspect-brk=" ++ toString port

/-- `fork`'s `execArgv` rewriting for one spawn with the given
`process.debugPort` and current `debugPortOffset`: when some argument
matches the inspect regex, run the removal loop and append
`--inspect-brk=<newPort>`; otherwise leave the arguments alone. -/
def forkExecArgv (execArgv : List String) (debugPort offsetV : Nat) :
    List String :=
  if execArgv.any inspectRegexMatch then
    spliceLoopAux execArgv 0 ++ [inspectBrkArg (assignInspectPort debugPort offsetV)]
  else execArgv

/-- No two adjacent arguments both contain `--inspect-brk`. -/
def noAdjBrk : List String → Bool
  | a :: b :: rest => (!(matchesInspectBrk a && matchesInspectBrk b)) && noAdjBrk (b :: rest)
  | _ => true

/-! ## Facts about the balancer -/

theorem trySend_ok_iff (w : Option WorkerH) (ok : Bool) :
    trySend w ok = Except.ok () ↔
      (∃ wh, w = some wh ∧ wh.connected = true) ∧ ok = true := by
  rcases w with _ | wh
  · simp [trySend]
  · rcases h : wh.connected <;> rcases ok <;> simp [trySend, h]

theorem balance_workers (p : Bool) (seed : Int) (addr : List Nat) (ok : Bool)
    (ws : List (Option WorkerH)) :
    (balance p seed addr ok ws).workers = (selectPhase p seed addr ws).2 := by
  unfold balance
  cases htr : trySend (selectPhase p seed addr ws).1 ok <;> simp [htr]

theorem balance_selected (p : Bool) (seed : Int) (addr : List Nat) (ok : Bool)
    (ws : List (Option WorkerH)) :
    (balance p seed addr ok ws).selected = (selectPhase p seed addr ws).1 := by
  unfold balance
  cases htr : trySend (selectPhase p seed addr ws).1 ok <;> simp [htr]

theorem balance_split (p : Bool) (seed : Int) (addr : List Nat) (ok : Bool)
    (ws : List (Option WorkerH)) :
    (trySend (selectPhase p seed addr ws).1 ok = Except.ok () ∧
      balance p seed addr ok ws =
        { selected := (selectPhase p seed addr ws).1, sent := true,
          errorLogged := false, closedEmitted := false, ended := false,
          workers := (selectPhase p seed addr ws).2 }) ∨
    (trySend (selectPhase p seed addr ws).1 ok = Except.error () ∧
      balance p seed addr ok ws =
        { selected := (selectPhase p seed addr ws).1, sent := false,
          errorLogged := true, closedEmitted := true, ended := true,
          workers := (selectPhase p seed addr ws).2 }) := by
  cases htr : trySend (selectPhase p seed addr ws).1 ok with
  | ok u => cases u; exact Or.inl ⟨rfl, by simp [balance, htr]⟩
  | error u => cases u; exact Or.inr ⟨rfl, by simp [balance, htr]⟩

theorem jsIndex_get (ws : List (Option WorkerH)) (i : Nat) (h : i < ws.length) :
    jsIndex ws i = ws.get ⟨i, h⟩ := by
  simp [jsIndex, List.getElem?_eq_getElem h]

/-- C6: the balancer sends the socket (with the `"balancing"` control
message) only when the chosen worker's IPC channel reports connected; on
any send failure (including a missing or non-connected worker) it logs
the error, emits `close` on the socket and ends it; and the routing list
after `balance` is exactly what the selection phase produced, i.e. the
failure handling never prunes the dead worker. -/
theorem balance_failure_handling (p : Bool) (seed : Int) (addr : List Nat)
    (ok : Bool) (ws : List (Option WorkerH)) :
    ((balance p seed addr ok ws).sent = true →
      ∃ wh, (balance p seed addr ok ws).selected = some wh ∧
        wh.connected = true) ∧
    ((balance p seed addr ok ws).sent = false →
      (balance p seed addr ok ws).errorLogged = true ∧
      (balance p seed addr ok ws).closedEmitted = true ∧
      (balance p seed addr ok ws).ended = true) ∧
    (balance p seed addr ok ws).workers = (selectPhase p seed addr ws).2 := by
  rcases balance_split p seed addr ok ws with ⟨htr, heq⟩ | ⟨htr, heq⟩
  · obtain ⟨⟨wh, hwh, hc⟩, _⟩ := (trySend_ok_iff _ _).mp htr
    rw [heq]
    exact ⟨fun _ => ⟨wh, hwh, hc⟩, fun hcon => by simp at hcon, rfl⟩
  · rw [heq]
    exact ⟨fun hcon => by simp at hcon, fun _ => ⟨rfl, rfl, rfl⟩, rfl⟩

/-- C9: balancing in round-robin mode with an empty routing list does not
let the exception escape (the `catch` branch runs: log, emit `close`, end
the socket), but afterwards the routing list holds exactly one element
and that element is `undefined`, not a worker handle. -/
theorem balance_empty_rr (seed : Int) (addr : List Nat) (ok : Bool) :
    balance false seed addr ok [] =
      { selected := none, sent := false, errorLogged := true,
        closedEmitted := true, ended := true, workers := [none] } ∧
    (balance false seed addr ok []).workers.length = 1 ∧
    (balance false seed addr ok []).workers.all (· = none) = true := by
  exact ⟨rfl, rfl, rfl⟩

/-- C4: with `isPermanentConnection = true` the balancer selects the
worker at index `hash(addr) % workers.length` and leaves the routing list
untouched; the selection depends only on the seed, the remote address and
the list, so repeated connections from the same address pick the same
worker. -/
theorem sticky_selects_hash (seed : Int) (addr : List Nat) (ok : Bool)
    (ws : List (Option WorkerH)) (hne : ws ≠ []) :
    (balance true seed addr ok ws).selected
        = ws.get ⟨hashJS seed addr % ws.length,
            Nat.mod_lt _ (List.length_pos.mpr hne)⟩ ∧
      (balance true seed addr ok ws).workers = ws ∧
      ∀ ok2 : Bool, (balance true seed addr ok2 ws).selected
        = (balance true seed addr ok ws).selected := by
  refine ⟨?_, ?_, ?_⟩
  · rw [balance_selected]
    exact jsIndex_get ws _ (Nat.mod_lt _ (List.length_pos.mpr hne))
  · rw [balance_workers]; rfl
  · intro ok2; rw [balance_selected, balance_selected]

theorem balanceIter_rotate (seed : Int) (addr : List Nat)
    (ws : List (Option WorkerH)) (hne : ws ≠ []) (k : Nat) :
    balanceIter seed addr ws k = ws.rotate k := by
  induction k with
  | zero => simp [balanceIter]
  | succ k ih =>
    have hlen : (ws.rotate k).length = ws.length := List.length_rotate ws k
    have hne2 : ws.rotate k ≠ [] := by
      intro hc
      apply hne
      have := congrArg List.length hc
      rw [hlen] at this
      exact List.length_eq_zero.mp this
    rcases hr : ws.rotate k with _ | ⟨y, t⟩
    · exact absurd hr hne2
    · simp only [balanceIter]
      rw [ih, hr, balance_workers]
      show t ++ [y] = ws.rotate (k + 1)
      calc t ++ [y] = (t ++ [y]).rotate 0 := by rw [List.rotate_zero]
        _ = (y :: t).rotate (0 + 1) := by rw [List.rotate_cons_succ]
        _ = (ws.rotate k).rotate 1 := by rw [hr]
        _ = ws.rotate (k + 1) := by rw [List.rotate_rotate]

/-- C3: with all workers connected and `isPermanentConnection = false`,
the `i`-th sequential connection is delivered (`sent = true`) to worker
`i % M` of the routing list as it stood initially; each call removes the
head, selects it, and re-appends it at the tail (the list after `i + 1`
calls is the initial list rotated `i + 1` times). -/
theorem rr_round_robin (seed : Int) (addr : List Nat)
    (ws : List (Option WorkerH)) (hne : ws ≠ [])
    (hconn : ∀ w ∈ ws, ∃ wh, w = some wh ∧ wh.connected = true) (i : Nat) :
    (balance false seed addr true (balanceIter seed addr ws i)).selected
        = ws.get ⟨i % ws.length, Nat.mod_lt _ (List.length_pos.mpr hne)⟩ ∧
      (balance false seed addr true (balanceIter seed addr ws i)).sent = true ∧
      balanceIter seed addr ws (i + 1) = ws.rotate (i + 1) := by
  have hrot := balanceIter_rotate seed addr ws hne i
  have hlen : (ws.rotate i).length = ws.length := List.length_rotate ws i
  have hpos : 0 < ws.length := List.length_pos.mpr hne
  have h0 : 0 < (ws.rotate i).length := by rw [hlen]; exact hpos
  have hget := List.get_rotate ws i ⟨0, h0⟩
  have hsel : (balance false seed addr true (balanceIter seed addr ws i)).selected
      = ws.get ⟨i % ws.length, Nat.mod_lt _ hpos⟩ := by
    rw [balance_selected, hrot]
    rcases hr : ws.rotate i with _ | ⟨y, t⟩
    · rw [hr] at h0; simp at h0
    · show y = ws.get ⟨i % ws.length, Nat.mod_lt _ hpos⟩
      have hy : (ws.rotate i).get ⟨0, h0⟩ = y := by
        simp [hr]
      rw [hy] at hget
      rw [hget]
      congr 1
      ext
      simp
  refine ⟨hsel, ?_, balanceIter_rotate seed addr ws hne (i + 1)⟩
  · have hmem : ws.get ⟨i % ws.length, Nat.mod_lt _ hpos⟩ ∈ ws :=
      List.get_mem ws (i % ws.length) (Nat.mod_lt _ hpos)
    obtain ⟨wh, hwh, hc⟩ := hconn _ hmem
    have hsel2 : (selectPhase false seed addr (balanceIter seed addr ws i)).1
        = some wh := by
      rw [← balance_selected false seed addr true (balanceIter seed addr ws i),
        hsel, hwh]
    rcases balance_split false seed addr true (balanceIter seed addr ws i) with
      ⟨htr, heq⟩ | ⟨htr, heq⟩
    · rw [heq]
    · rw [hsel2] at htr
      simp [trySend, hc] at htr
/-! ## The hash against the spec mixer -/

/-- C2 (amended): when the seed is a nonnegative int32 value and every
reduction `hash %= 2147483648` along the computation yields a nonnegative
value, the source's hash computes exactly the spec's seed-initialized
mixer (per byte `h = (h+b) mod 2^31`, `h = (h + (h<<10)) mod 2^31`,
`h ^= h >> 6`, then `h = (h + (h<<3)) mod 2^31`, `h ^= h >> 11`,
`h = (h + (h<<15)) mod 2^31`, returned as an unsigned 32-bit value). In
general JS `%` keeps the dividend's sign and `>>` is an arithmetic shift,
so without those provisos the two computations differ. -/
theorem hash_matches_spec_mixer (seed : Nat) (ip : List Nat)
    (hseed : seed < 2147483648)
    (hn : nonnegTrace ((seed : Nat) : Int) ip = true) :
    hashJS ((seed : Nat) : Int) ip = hashSpec seed ip := by
  simp only [nonnegTrace, Bool.and_eq_true] at hn
  obtain ⟨hl, hf⟩ := hn
  obtain ⟨el, bl⟩ := loop_eq_spec ip seed hseed hl
  rw [el] at hf
  obtain ⟨ef, bf⟩ := hashFinJS_eq_spec _ bl hf
  unfold hashJS hashSpec
  rw [el, ef]
  exact toNat32_cast _ (by omega)

/-- C2 (counterexample): at the nonnegative int32 seed 2097151 and the
one-byte input `[1]`, the source's hash disagrees with the spec's mixer,
and the computation does reach a negative intermediate (the claim's
assertion that every intermediate stays nonnegative below 2^31 fails). -/
theorem hash_deviates_from_spec_mixer :
    hashJS ((2097151 : Nat) : Int) [1] ≠ hashSpec 2097151 [1] ∧
      nonnegTrace ((2097151 : Nat) : Int) [1] = false := by
  constructor
  · decide
  · decide

/-! ## The worker supervisor -/

theorem jsIndexOf_eraseIdx_eq_erase (ws : List WorkerH) (dead : WorkerH) :
    (match jsIndexOf ws dead with
     | some i => ws.eraseIdx i
     | none => ws) = ws.erase dead := by
  induction ws with
  | nil => rfl
  | cons x xs ih =>
    by_cases hx : x = dead
    · subst hx
      simp [jsIndexOf, List.erase_cons_head]
    · have hbne : ¬(x == dead) = true := by simp [hx]
      rcases hf : jsIndexOf xs dead with _ | j
      · rw [hf] at ih
        simp only [jsIndexOf, if_neg hx, hf, Option.map_none']
        rw [List.erase_cons_tail (by simp [hx])]
        exact congrArg (x :: ·) ih
      · rw [hf] at ih
        simp only [jsIndexOf, if_neg hx, hf, Option.map_some', List.eraseIdx_cons_succ]
        rw [List.erase_cons_tail (by simp [hx])]
        exact congrArg (x :: ·) ih

theorem respawnList_eq_erase (ws : List WorkerH) (dead fresh : WorkerH) :
    respawnList ws dead fresh = ws.erase dead ++ [fresh] := by
  unfold respawnList
  rw [jsIndexOf_eraseIdx_eq_erase]

theorem respawnList_length (ws : List WorkerH) (dead fresh : WorkerH)
    (h : dead ∈ ws) :
    (respawnList ws dead fresh).length = ws.length := by
  rw [respawnList_eq_erase]
  have h1 : (ws.erase dead).length = ws.length - 1 := List.length_erase_of_mem h
  have h2 : 0 < ws.length := List.length_pos.mpr (List.ne_nil_of_mem h)
  simp [h1]
  omega

/-- C10: a respawn removes the dead handle from wherever it stood
(`indexOf` + `splice`) and pushes the replacement at the tail, so after a
respawn the replacement occupies the last position of the routing list
and the pool size is preserved. -/
theorem respawn_appends_at_tail (ws : List WorkerH) (dead fresh : WorkerH)
    (h : dead ∈ ws) :
    respawnList ws dead fresh = ws.erase dead ++ [fresh] ∧
      (respawnList ws dead fresh).getLast? = some fresh ∧
      (respawnList ws dead fresh).length = ws.length := by
  refine ⟨respawnList_eq_erase ws dead fresh, ?_, respawnList_length ws dead fresh h⟩
  rw [respawnList_eq_erase]
  simp

/-- C10 (witness): respawning the middle worker of three appends the
replacement at the tail and keeps the pool at three. -/
theorem respawn_appends_at_tail_witness :
    WorkerH.mk 2 false ∈
        [WorkerH.mk 1 true, WorkerH.mk 2 false, WorkerH.mk 3 true] ∧
      (respawnList [WorkerH.mk 1 true, WorkerH.mk 2 false, WorkerH.mk 3 true]
          (WorkerH.mk 2 false) (WorkerH.mk 4 true)).getLast?
        = some (WorkerH.mk 4 true) ∧
      (respawnList [WorkerH.mk 1 true, WorkerH.mk 2 false, WorkerH.mk 3 true]
          (WorkerH.mk 2 false) (WorkerH.mk 4 true)).length = 3 :=
  ⟨by decide,
    (respawn_appends_at_tail _ _ (WorkerH.mk 4 true) (by decide)).2.1,
    (respawn_appends_at_tail _ _ (WorkerH.mk 4 true) (by decide)).2.2⟩

/-- C1 (amended): on a worker's exit the handler respawns only when the
respawn flag is set: with `respawn=true` the dead handle is removed and a
replacement is appended (pool size preserved); with `respawn=false` the
handler does nothing, so the dead worker stays in the routing list, the
pool does not shrink, and the routing list can keep workers whose IPC
channel is no longer connected. -/
theorem exit_handler_behavior (ws : List WorkerH) (dead fresh : WorkerH)
    (hmem : dead ∈ ws) :
    onExit true ws dead fresh = ws.erase dead ++ [fresh] ∧
      (onExit true ws dead fresh).length = ws.length ∧
      onExit false ws dead fresh = ws ∧
      dead ∈ onExit false ws dead fresh := by
  refine ⟨?_, ?_, rfl, ?_⟩
  · show respawnList ws dead fresh = _
    exact respawnList_eq_erase ws dead fresh
  · show (respawnList ws dead fresh).length = _
    exact respawnList_length ws dead fresh hmem
  · exact hmem

/-- C1 (counterexample): a worker that exits while `respawn=false` is not
removed: the routing list still contains the dead, non-connected handle
and the pool does not shrink, contradicting the claim that the handle is
removed on exit regardless of the respawn setting. -/
theorem exit_no_respawn_keeps_dead :
    onExit false [WorkerH.mk 7 false] (WorkerH.mk 7 false) (WorkerH.mk 8 true)
        = [WorkerH.mk 7 false] ∧
      WorkerH.mk 7 false ∈
        onExit false [WorkerH.mk 7 false] (WorkerH.mk 7 false)
          (WorkerH.mk 8 true) ∧
      (WorkerH.mk 7 false).connected = false ∧
      (onExit false [WorkerH.mk 7 false] (WorkerH.mk 7 false)
          (WorkerH.mk 8 true)).length ≠ 0 := by
  refine ⟨rfl, by decide, rfl, by decide⟩

/-- C1 (witness): concrete instance of the amended exit behaviour. -/
theorem exit_handler_behavior_witness :
    WorkerH.mk 1 false ∈ [WorkerH.mk 1 false, WorkerH.mk 2 true] ∧
      onExit true [WorkerH.mk 1 false, WorkerH.mk 2 true] (WorkerH.mk 1 false)
          (WorkerH.mk 3 true)
        = [WorkerH.mk 2 true, WorkerH.mk 3 true] ∧
      onExit false [WorkerH.mk 1 false, WorkerH.mk 2 true] (WorkerH.mk 1 false)
          (WorkerH.mk 3 true)
        = [WorkerH.mk 1 false, WorkerH.mk 2 true] :=
  ⟨by decide,
    ((exit_handler_behavior [WorkerH.mk 1 false, WorkerH.mk 2 true]
        (WorkerH.mk 1 false) (WorkerH.mk 3 true) (by decide)).1).trans (by decide),
    (exit_handler_behavior [WorkerH.mk 1 false, WorkerH.mk 2 true]
        (WorkerH.mk 1 false) (WorkerH.mk 3 true) (by decide)).2.2.1⟩

/-! ## The worker-side message handler -/

/-- C7: the worker's IPC handler reacts exactly to a message whose body is
the literal string `"balancing"` with a socket attached: it increments the
server's `_connections` counter, records the server as the socket's owning
server, and emits `connection` with the socket; any other message (or a
missing socket) leaves the server state unchanged. -/
theorem worker_message_handler (msg : String) (sock : Option Nat) (st : WState) :
    (∀ s, sock = some s → msg = "balancing" →
        handleMessage msg sock st =
          { connections := st.connections + 1, owned := st.owned ++ [s],
            emitted := st.emitted ++ [s] }) ∧
    (msg ≠ "balancing" ∨ sock = none → handleMessage msg sock st = st) ∧
    ((handleMessage msg sock st).connections ≠ st.connections ↔
      msg = "balancing" ∧ sock ≠ none) := by
  rcases sock with _ | s
  · by_cases hm : msg = "balancing" <;> simp [handleMessage, hm]
  · by_cases hm : msg = "balancing" <;> simp [handleMessage, hm]
/-- C2 (witness): at seed 0 and input `[1]` the trace stays nonnegative
and the hash equals the spec mixer. -/
theorem hash_matches_spec_mixer_witness :
    nonnegTrace ((0 : Nat) : Int) [1] = true ∧
      hashJS ((0 : Nat) : Int) [1] = hashSpec 0 [1] :=
  ⟨by decide, hash_matches_spec_mixer 0 [1] (by decide) (by decide)⟩

/-- C3 (witness): two connected workers, three sequential round-robin
connections land on worker 1, worker 2, worker 1. -/
theorem rr_round_robin_witness :
    (balance false 0 [1] true (balanceIter 0 [1]
        [some (WorkerH.mk 1 true), some (WorkerH.mk 2 true)] 0)).selected
      = some (WorkerH.mk 1 true) ∧
    (balance false 0 [1] true (balanceIter 0 [1]
        [some (WorkerH.mk 1 true), some (WorkerH.mk 2 true)] 1)).selected
      = some (WorkerH.mk 2 true) ∧
    (balance false 0 [1] true (balanceIter 0 [1]
        [some (WorkerH.mk 1 true), some (WorkerH.mk 2 true)] 2)).selected
      = some (WorkerH.mk 1 true) := by
  have hconn : ∀ w ∈ ([some (WorkerH.mk 1 true), some (WorkerH.mk 2 true)] :
      List (Option WorkerH)), ∃ wh, w = some wh ∧ wh.connected = true := by
    intro w hw
    rcases List.mem_cons.mp hw with h | hw2
    · exact ⟨WorkerH.mk 1 true, h, rfl⟩
    · rcases List.mem_cons.mp hw2 with h | h3
      · exact ⟨WorkerH.mk 2 true, h, rfl⟩
      · exact absurd h3 (List.not_mem_nil w)
  refine ⟨?_, ?_, ?_⟩
  · exact ((rr_round_robin 0 [1] _ (by decide) hconn 0).1).trans (by decide)
  · exact ((rr_round_robin 0 [1] _ (by decide) hconn 1).1).trans (by decide)
  · exact ((rr_round_robin 0 [1] _ (by decide) hconn 2).1).trans (by decide)

/-- C4 (witness): sticky balancing on a two-worker list picks the worker
at index `hash(addr) % 2` and leaves the list unchanged. -/
theorem sticky_selects_hash_witness :
    (balance true 5 [10] true
        [some (WorkerH.mk 1 true), some (WorkerH.mk 2 true)]).workers
      = [some (WorkerH.mk 1 true), some (WorkerH.mk 2 true)] ∧
    (balance true 5 [10] true
        [some (WorkerH.mk 1 true), some (WorkerH.mk 2 true)]).selected
      = (balance true 5 [10] false
          [some (WorkerH.mk 1 true), some (WorkerH.mk 2 true)]).selected :=
  ⟨(sticky_selects_hash 5 [10] true
      [some (WorkerH.mk 1 true), some (WorkerH.mk 2 true)] (by decide)).2.1,
    ((sticky_selects_hash 5 [10] true
      [some (WorkerH.mk 1 true), some (WorkerH.mk 2 true)] (by decide)).2.2
        false).symm⟩

/-! ## Debug port assignment -/

/-- C5 (amended): while `masterDebugPort + numberOfSpawns` stays at or
below 65535 the assigned ports are `masterDebugPort + offset` with the
offset starting at 1 and incrementing per spawn, pairwise distinct and
all at most 65535; once the sum overflows, the single `subtract 1`
correction makes ports repeat and then exceed 65535. -/
theorem inspect_ports_distinct_of_no_overflow (dp n : Nat)
    (h : dp + n ≤ 65535) :
    inspectPorts dp n = (List.range n).map (fun k => dp + k + 1) ∧
      (inspectPorts dp n).Pairwise (· ≠ ·) ∧
      ∀ p ∈ inspectPorts dp n, p ≤ 65535 := by
  have hmap : inspectPorts dp n = (List.range n).map (fun k => dp + k + 1) := by
    unfold inspectPorts
    apply List.map_congr_left
    intro k hk
    have hkn : k < n := List.mem_range.mp hk
    simp only [assignInspectPort]
    rw [if_neg (by omega)]
    omega
  refine ⟨hmap, ?_, ?_⟩
  · rw [hmap]
    exact List.Pairwise.map _ (fun a b hab => by omega) (List.pairwise_lt_range n)
  · intro p hp
    rw [hmap] at hp
    obtain ⟨k, hk, rfl⟩ := List.mem_map.mp hp
    have := List.mem_range.mp hk
    omega

/-- C5 (counterexample): with the master's debug port at 65534, three
spawns receive ports 65535, 65535 and 65536 — neither pairwise distinct
nor all at most 65535, refuting the claim for arbitrary spawn sequences. -/
theorem inspect_ports_collide :
    inspectPorts 65534 3 = [65535, 65535, 65536] ∧
      ¬ (inspectPorts 65534 3).Pairwise (· ≠ ·) ∧
      ¬ (∀ p ∈ inspectPorts 65534 3, p ≤ 65535) := by
  refine ⟨by decide, by decide, by decide⟩

/-- C5 (witness): master at the default port 9229 spawning two workers
gives the distinct ports 9230 and 9231. -/
theorem inspect_ports_distinct_witness :
    9229 + 2 ≤ 65535 ∧ inspectPorts 9229 2 = [9230, 9231] ∧
      (inspectPorts 9229 2).Pairwise (· ≠ ·) :=
  ⟨by decide,
    (inspect_ports_distinct_of_no_overflow 9229 2 (by decide)).1.trans (by decide),
    (inspect_ports_distinct_of_no_overflow 9229 2 (by decide)).2.1⟩

/-! ## The execArgv rewriting of fork -/

theorem spliceLoopAux_acc (n : Nat) : ∀ (xs acc : List String),
    xs.length ≤ n →
    spliceLoopAux (acc ++ xs) acc.length = acc ++ goSplice xs := by
  induction n with
  | zero =>
    intro xs acc hle
    have hxs : xs = [] := List.length_eq_zero.mp (by omega)
    subst hxs
    rw [spliceLoopAux, dif_neg (by simp)]
    simp [goSplice]
  | succ n ih =>
    intro xs acc hle
    rcases xs with _ | ⟨x, xs2⟩
    · rw [spliceLoopAux, dif_neg (by simp)]
      simp [goSplice]
    · have hlt : acc.length < (acc ++ x :: xs2).length := by simp
      have hget : (acc ++ x :: xs2).get ⟨acc.length, hlt⟩ = x := by
        rw [List.get_eq_getElem, List.getElem_append_right (le_refl _)]
        simp
      rw [spliceLoopAux, dif_pos hlt, hget]
      by_cases hm : matchesInspectBrk x = true
      · rw [if_pos hm]
        have herase : (acc ++ x :: xs2).eraseIdx acc.length = acc ++ xs2 := by
          rw [List.eraseIdx_eq_take_drop_succ, List.take_left]
          congr 1
          rw [← List.drop_drop, List.drop_left]
          rfl
        rw [herase]
        rcases xs2 with _ | ⟨y, ys⟩
        · rw [show acc ++ ([] : List String) = acc by simp]
          rw [spliceLoopAux, dif_neg (by omega)]
          simp [goSplice, hm]
        · have hassoc : acc ++ y :: ys = (acc ++ [y]) ++ ys := by simp
          have hidx : acc.length + 1 = (acc ++ [y]).length := by simp
          rw [hassoc, hidx, ih ys (acc ++ [y]) (by simp at hle ⊢; omega)]
          simp [goSplice, hm]
      · rw [if_neg hm]
        have hassoc : acc ++ x :: xs2 = (acc ++ [x]) ++ xs2 := by simp
        have hidx : acc.length + 1 = (acc ++ [x]).length := by simp
        rw [hassoc, hidx, ih xs2 (acc ++ [x]) (by simp at hle ⊢; omega)]
        rcases xs2 with _ | ⟨y, ys⟩ <;> simp [goSplice, hm]

theorem spliceLoop_eq_go (l : List String) : spliceLoopAux l 0 = goSplice l := by
  have h := spliceLoopAux_acc l.length l [] (le_refl _)
  simpa using h

theorem noAdjBrk_tail (a : String) (l : List String)
    (h : noAdjBrk (a :: l) = true) : noAdjBrk l = true := by
  cases l with
  | nil => rfl
  | cons y ys =>
    simp only [noAdjBrk, Bool.and_eq_true] at h
    exact h.2

theorem goSplice_no_brk (n : Nat) : ∀ l : List String, l.length ≤ n →
    noAdjBrk l = true → ∀ s ∈ goSplice l, matchesInspectBrk s = false := by
  induction n with
  | zero =>
    intro l hle _ s hs
    have hl : l = [] := List.length_eq_zero.mp (by omega)
    subst hl
    simp [goSplice] at hs
  | succ n ih =>
    intro l hle hadj s hs
    rcases l with _ | ⟨x, xs⟩
    · simp [goSplice] at hs
    · by_cases hm : matchesInspectBrk x = true
      · rcases xs with _ | ⟨y, ys⟩
        · simp [goSplice, hm] at hs
        · rw [show goSplice (x :: y :: ys) = y :: goSplice ys by
            simp [goSplice, hm]] at hs
          have hpair : (!(matchesInspectBrk x && matchesInspectBrk y)) = true ∧
              noAdjBrk (y :: ys) = true := by
            simpa [noAdjBrk, Bool.and_eq_true] using hadj
          rcases List.mem_cons.mp hs with rfl | hs2
          · cases hy : matchesInspectBrk s
            · rfl
            · rw [hm, hy] at hpair
              simp at hpair
          · exact ih ys (by simp at hle; omega)
              (noAdjBrk_tail y ys hpair.2) s hs2
      · rcases xs with _ | ⟨y, ys⟩
        · rw [show goSplice ([x] : List String) = [x] by
            simp [goSplice, hm]] at hs
          rcases List.mem_cons.mp hs with rfl | h2
          · cases hy : matchesInspectBrk s
            · rfl
            · exact absurd hy hm
          · simp at h2
        · rw [show goSplice (x :: y :: ys) = x :: goSplice (y :: ys) by
            simp [goSplice, hm]] at hs
          rcases List.mem_cons.mp hs with rfl | hs2
          · cases hy : matchesInspectBrk s
            · rfl
            · exact absurd hy hm
          · exact ih (y :: ys) (by simp at hle ⊢; omega)
              (noAdjBrk_tail x (y :: ys) hadj) s hs2

theorem listStartsWith_append (needle rest : List Char) :
    listStartsWith needle (needle ++ rest) = true := by
  induction needle with
  | nil => rfl
  | cons c cs ih => simp [listStartsWith, ih]

theorem listHasSub_of_startsWith (needle hay : List Char)
    (h : listStartsWith needle hay = true) : listHasSub needle hay = true := by
  cases hay with
  | nil =>
    cases needle with
    | nil => rfl
    | cons c cs => simp [listStartsWith] at h
  | cons b bs => simp [listHasSub, h]

theorem matchesInspectBrk_arg (port : Nat) :
    matchesInspectBrk (inspectBrkArg port) = true := by
  unfold matchesInspectBrk inspectBrkArg
  apply listHasSub_of_startsWith
  have h : ("--inspect-brk=" ++ toString port).toList
      = "--inspect-brk".toList ++ ('=' :: (toString port).toList) := by
    show ("--inspect-brk=" ++ toString port).data = _
    rw [String.data_append]
    rfl
  rw [h]
  exact listStartsWith_append _ _

/-- C8 (amended): when no two adjacent exec arguments both contain
`--inspect-brk`, the child's argument list after the rewriting contains
exactly one `--inspect-brk` argument — the appended
`--inspect-brk=<newPort>`; with adjacent occurrences the removal loop
(which still advances after a `splice`) skips the entry sliding into the
freed slot, so every second entry of such a run survives. -/
theorem forkExecArgv_no_stale_brk (l : List String) (dp off : Nat)
    (hadj : noAdjBrk l = true) (hflag : l.any inspectRegexMatch = true) :
    (forkExecArgv l dp off).filter matchesInspectBrk
      = [inspectBrkArg (assignInspectPort dp off)] := by
  unfold forkExecArgv
  rw [if_pos hflag, List.filter_append, spliceLoop_eq_go]
  have hnil : (goSplice l).filter matchesInspectBrk = [] := by
    rw [List.filter_eq_nil_iff]
    intro a ha
    simp [goSplice_no_brk l.length l (le_refl _) hadj a ha]
  rw [hnil]
  simp [List.filter_cons, matchesInspectBrk_arg]

/-- C8 (counterexample): a master argument list with two adjacent
`--inspect-brk` entries keeps the second one: the child receives both the
stale `--inspect-brk=2` and the fresh `--inspect-brk=9230`, refuting the
claim that every pre-existing `--inspect-brk` argument is removed. -/
theorem forkExecArgv_keeps_adjacent_brk :
    forkExecArgv ["--inspect-brk=1", "--inspect-brk=2"] 9229 1
        = ["--inspect-brk=2", "--inspect-brk=9230"] ∧
      matchesInspectBrk "--inspect-brk=2" = true ∧
      "--inspect-brk=2" ≠ inspectBrkArg (assignInspectPort 9229 1) := by
  refine ⟨?_, by decide, by decide⟩
  unfold forkExecArgv
  rw [if_pos (by decide), spliceLoop_eq_go]
  decide

/-- C8 (witness): a master started with `--inspect-brk=9229` hands its
first two children exactly one inspect argument each, `9230` and `9231`
respectively. -/
theorem forkExecArgv_no_stale_brk_witness :
    noAdjBrk ["--inspect-brk=9229"] = true ∧
      (forkExecArgv ["--inspect-brk=9229"] 9229 1).filter matchesInspectBrk
        = ["--inspect-brk=9230"] ∧
      (forkExecArgv ["--inspect-brk=9229"] 9229 2).filter matchesInspectBrk
        = ["--inspect-brk=9231"] :=
  ⟨by decide,
    (forkExecArgv_no_stale_brk _ 9229 1 (by decide) (by decide)).trans (by decide),
    (forkExecArgv_no_stale_brk _ 9229 2 (by decide) (by decide)).trans (by decide)⟩
